import Mathlib

/-!
Shallow embedding of the path-fragment matching engine of `src/cmd.rs`:
the fragment parser (`ArgPathFragment::parse`), path specs (`ArgPath`),
the file classifier (`get_file_type`), the resolver
(`Command::resolve_input_files`) and the run loop (`Command::run`).

Strings are modelled by Lean `String` (a list of characters); the byte
index returned by Rust `str::find` always falls on the boundary before
the first matching character, so splitting the character list at the
first ASCII digit is the very split the Rust code performs.
`usize` is modelled as `Nat` bounded by `USIZE_MAX` (64-bit target);
`str::parse::<usize>` is fallible, failing on a non-digit character or
on overflow, and the model keeps both failure modes.
-/

namespace Aoc

/-- `usize::MAX` on the 64-bit target the crate is built for. -/
def USIZE_MAX : Nat := 2 ^ 64 - 1

/-- Numeric value of an ASCII digit character. -/
def charVal (c : Char) : Nat := c.toNat - 48

/-- The ASCII digit character of a value below ten. -/
def digitToChar (d : Nat) : Char := Char.ofNat (48 + d)

/-- Value of a digit string read most-significant-first, exactly as
`str::parse::<usize>` accumulates it. -/
def decimalValue (cs : List Char) : Nat :=
  cs.foldl (fun acc c => acc * 10 + charVal c) 0

/-- Models `str::parse::<usize>` on a string whose first character is an
ASCII digit (the only call site passes the suffix of the token starting
at its first digit, so the optional leading sign of the Rust grammar is
unreachable there): every character must be an ASCII digit and the value
must fit in `usize`, otherwise the parse fails. -/
def parseUsize (cs : List Char) : Option Nat :=
  if cs ≠ [] ∧ cs.all Char.isDigit ∧ decimalValue cs ≤ USIZE_MAX then
    some (decimalValue cs)
  else
    none

/-- Decimal rendering of a natural number (the `prefix + str(index)`
re-derivation of the round-trip property renders an index this way). -/
def natToDecimal (n : Nat) : List Char :=
  if n < 10 then [digitToChar n]
  else natToDecimal (n / 10) ++ [digitToChar (n % 10)]
termination_by n
decreasing_by exact Nat.div_lt_self (by omega) (by omega)

/-- Decimal rendering as a string. -/
def renderNat (n : Nat) : String := String.mk (natToDecimal n)

/-- `ParsePathError` of `cmd.rs` (the `std::num::ParseIntError` payload
of `InvalidIndex` is collapsed away; the offending token, which the Rust
value also carries, is kept). -/
inductive ParsePathError where
  | Empty : ParsePathError
  | InvalidPath : String → ParsePathError
  | InvalidIndex : String → ParsePathError
deriving Repr, DecidableEq

/-- `ArgPathFragment` of `cmd.rs`: a literal prefix and an optional
numeric index.  The field `pfx` models the Rust field `prefix` (a Lean
keyword). -/
structure ArgPathFragment where
  pfx : String
  index : Option Nat
deriving Repr, DecidableEq

/-- `ArgPathFragment::parse`: reject the empty token; split at the first
ASCII digit (`s.find(|c| c.is_ascii_digit())` followed by `split_at`),
the part before it is the prefix and the rest must parse as `usize`; a
token with no digit is all prefix with no index. -/
def ArgPathFragment.parse (s : String) : Except ParsePathError ArgPathFragment :=
  if s.data = [] then
    .error .Empty
  else
    match s.data.dropWhile (fun c => !c.isDigit) with
    | [] => .ok ⟨s, none⟩
    | rest =>
      match parseUsize rest with
      | some n => .ok ⟨String.mk (s.data.takeWhile (fun c => !c.isDigit)), some n⟩
      | none => .error (.InvalidIndex s)

/-- Rust `str::split(sep)` on the character list: the (never empty)
list of separator-delimited tokens, keeping empty tokens, with
`"".split(sep) == [""]`. -/
def splitOnChar (sep : Char) : List Char → List (List Char)
  | [] => [[]]
  | c :: cs =>
    if c = sep then [] :: splitOnChar sep cs
    else
      match splitOnChar sep cs with
      | [] => [[c]]
      | t :: ts => (c :: t) :: ts

/-- `.map(ArgPathFragment::parse).collect::<Result<Vec<_>, _>>()`:
parse every token, short-circuiting on the first error. -/
def parseTokens : List String → Except ParsePathError (List ArgPathFragment)
  | [] => .ok []
  | t :: ts =>
    match ArgPathFragment.parse t with
    | .error e => .error e
    | .ok f =>
      match parseTokens ts with
      | .error e => .error e
      | .ok fs => .ok (f :: fs)

/-- `ArgPath` of `cmd.rs`: the original string and its fragments. -/
structure ArgPath where
  value : String
  fragments : List ArgPathFragment
deriving Repr, DecidableEq

/-- `ArgPath::parse`: reject the empty string, split on `/`, parse every
token as a fragment. -/
def ArgPath.parse (s : String) : Except ParsePathError ArgPath :=
  if s = "" then
    .error .Empty
  else
    match parseTokens ((splitOnChar '/' s.data).map String.mk) with
    | .error e => .error e
    | .ok fragments => .ok ⟨s, fragments⟩

/-- `ArgPath::parse_path`, applied to the file name component of the
path (the `file_name()`/`to_str()` extraction is the identity for the
plain file names the resolver lists): split on `.`, drop the last
dot-segment (`Vec::pop`, the extension), parse the remaining tokens. -/
def ArgPath.parsePath (fileName : String) : Except ParsePathError ArgPath :=
  match parseTokens (((splitOnChar '.' fileName.data).dropLast).map String.mk) with
  | .error e => .error e
  | .ok fragments => .ok ⟨fileName, fragments⟩

/-- `ArgPath::fragment`: first fragment whose prefix equals `p`. -/
def ArgPath.fragment (a : ArgPath) (p : String) : Option ArgPathFragment :=
  a.fragments.find? (fun f => f.pfx = p)

/-- `ArgPath::fragment_index`. -/
def ArgPath.fragmentIndex (a : ArgPath) (p : String) : Option Nat :=
  (a.fragment p).bind (fun f => f.index)

/-- The loop of `ArgPath::disjoint` on the two fragment lists: the first
fragment of the left list whose position is past the end of the right
list or differs from the right list's fragment there. -/
def disjointAux : List ArgPathFragment → List ArgPathFragment → Option ArgPathFragment
  | [], _ => none
  | f :: _, [] => some f
  | f :: fs, g :: gs => if f ≠ g then some f else disjointAux fs gs

/-- `ArgPath::disjoint`. -/
def ArgPath.disjoint (a other : ArgPath) : Option ArgPathFragment :=
  disjointAux a.fragments other.fragments

/-- `FileType` of `cmd.rs`. -/
inductive FileType where
  | Input : FileType
  | Test : FileType
deriving Repr, DecidableEq

/-- `str::to_lowercase` (character by character; the special multi-char
Unicode lowerings do not arise for the ASCII prefixes compared here). -/
def lowercase (s : String) : String := String.mk (s.data.map Char.toLower)

/-- The loop of `get_file_type` over the fragments. -/
def getFileTypeAux : List ArgPathFragment → Option FileType
  | [] => none
  | f :: fs =>
    let p := lowercase f.pfx
    if p = "input" then some .Input
    else if p = "test" then some .Test
    else getFileTypeAux fs

/-- `get_file_type`: scan the fragments in order, lower-casing each
prefix; `input` classifies as `Input`, `test` as `Test`, otherwise keep
scanning; no match means unclassifiable (`None`). -/
def getFileType (a : ArgPath) : Option FileType :=
  getFileTypeAux a.fragments

/-- `CommonArgs` of `cmd.rs`. -/
structure CommonArgs where
  path : ArgPath
deriving Repr, DecidableEq

/-- `day::SolverError` (payloads opaque to the command layer are
collapsed to the data the claims need). -/
inductive SolverError where
  | UnknownDay : Nat → SolverError
  | InvalidPart : Nat → SolverError
  | InputFile : String → SolverError
  | Generic : String → SolverError
  | Test : String → String → SolverError
deriving Repr, DecidableEq

/-- `cmd::Error` (the `std::io::Error` payload of `ReadInputDirectory`
is dropped; paths are their strings). -/
inductive Error where
  | MissingCommand : Error
  | MissingPath : String → Error
  | InvalidCommand : String → Error
  | InvalidPath : ParsePathError → Error
  | ResolvePath : String → Error
  | ReadInputDirectory : String → Error
  | SolverError : String → SolverError → Error
deriving Repr, DecidableEq

/-- `Command` of `cmd.rs`. -/
inductive Command where
  | Solve : CommonArgs → Command
  | Test : CommonArgs → Command
deriving Repr, DecidableEq

/-- `Command::args`. -/
def Command.args : Command → CommonArgs
  | .Solve a => a
  | .Test a => a

/-- `matches!(self, Self::Test(_))`. -/
def Command.isTest : Command → Bool
  | .Solve _ => false
  | .Test _ => true

instance {ε α : Type} [DecidableEq ε] [DecidableEq α] : DecidableEq (Except ε α) :=
  fun a b =>
    match a, b with
    | .ok a, .ok b =>
      if h : a = b then .isTrue (by rw [h]) else .isFalse (by simp [h])
    | .error a, .error b =>
      if h : a = b then .isTrue (by rw [h]) else .isFalse (by simp [h])
    | .ok _, .error _ => .isFalse (by simp)
    | .error _, .ok _ => .isFalse (by simp)

/-- The body of the `for file in &files` loop of
`Command::resolve_input_files`, for one file name: an error aborts the
resolution, `none` means the file is skipped (`continue` or falling
through without a push), `some` means the file is pushed onto the
result list.  `cmd.args.path.fragmentIndex "part"` is the
`arg_fragment` the Rust code computes before the loop. -/
def fileOutcome (cmd : Command) (file : String) :
    Except Error (Option (ArgPath × String)) :=
  match ArgPath.parsePath file with
  | .error e => .error (.InvalidPath e)
  | .ok filePath =>
    match getFileType filePath with
    | none =>
      -- WARN skipping file with unknown type
      .ok none
    | some fileType =>
      match filePath.disjoint cmd.args.path with
      | some fragment =>
        if fragment.pfx = "part" then
          if fileType = .Test ∧ ¬cmd.isTest = true ∨
             fileType = .Input ∧ cmd.isTest = true then
            .ok none
          else
            match cmd.args.path.fragmentIndex "part", fragment.index with
            | some argFragment, some fragIndex =>
              if argFragment = fragIndex then .ok (some (filePath, file))
              else .ok none
            | none, _ => .ok (some (filePath, file))
            | _, _ => .ok none
        else if fragment.pfx = "input" ∧ ¬cmd.isTest = true then
          .ok (some (filePath, file))
        else if fragment.pfx = "test" ∧ cmd.isTest = true then
          .ok (some (filePath, file))
        else
          .ok none
      | none => .ok (some (filePath, file))

/-- The `for file in &files` loop of `Command::resolve_input_files`,
with the directory listing supplied as the list of file names. -/
def resolveLoop (cmd : Command) : List String → Except Error (List (ArgPath × String))
  | [] => .ok []
  | file :: files =>
    match fileOutcome cmd file with
    | .error e => .error e
    | .ok none => resolveLoop cmd files
    | .ok (some r) =>
      match resolveLoop cmd files with
      | .error e => .error e
      | .ok rest => .ok (r :: rest)

/-- `Command::resolve_input_files` with the directory listing supplied
as a list of file names. -/
def Command.resolveInputFiles (cmd : Command) (files : List String) :
    Except Error (List (ArgPath × String)) :=
  resolveLoop cmd files

/-- The per-file loop of `Command::run` over the resolved files.  The
external solver and tester collaborators (`day::solve`, `day::test`)
are parameters: each takes the input file, the day index and the part
index.  In `Solve` mode a solver error aborts the run; in `Test` mode
both test outcomes are only printed and the loop continues. -/
def runLoop (cmd : Command)
    (solver : String → Nat → Nat → Except SolverError String)
    (tester : String → Nat → Nat → Except SolverError String) :
    List (ArgPath × String) → Except Error Unit
  | [] => .ok ()
  | (path, inputFile) :: rest =>
    match path.fragmentIndex "day" with
    | none => .error (.ResolvePath inputFile)
    | some dayIndex =>
      match path.fragmentIndex "part" with
      | none => .error (.ResolvePath inputFile)
      | some partIndex =>
        match cmd with
        | .Solve _ =>
          match solver inputFile dayIndex partIndex with
          | .error e => .error (.SolverError inputFile e)
          | .ok _ => runLoop cmd solver tester rest
        | .Test _ => runLoop cmd solver tester rest

/-- `Command::run` with the directory listing supplied as a list of
file names: resolve the input files, then run the per-file loop (an
empty result set only prints a message, which the model folds into the
`ok` of the empty loop). -/
def Command.run (cmd : Command)
    (solver : String → Nat → Nat → Except SolverError String)
    (tester : String → Nat → Nat → Except SolverError String)
    (files : List String) : Except Error Unit :=
  match cmd.resolveInputFiles files with
  | .error e => .error e
  | .ok inputFiles => runLoop cmd solver tester inputFiles

/-! ### Character and decimal-arithmetic lemmas -/

theorem char_eq_of_toNat {c d : Char} (h : c.toNat = d.toNat) : c = d :=
  Char.ext (UInt32.ext h)

theorem isDigit_toNat {c : Char} (h : c.isDigit = true) :
    48 ≤ c.toNat ∧ c.toNat ≤ 57 := by
  simp [Char.isDigit] at h
  exact ⟨h.1, h.2⟩

theorem isDigit_cases {c : Char} (h : c.isDigit = true) :
    c = '0' ∨ c = '1' ∨ c = '2' ∨ c = '3' ∨ c = '4' ∨
    c = '5' ∨ c = '6' ∨ c = '7' ∨ c = '8' ∨ c = '9' := by
  have hb := isDigit_toNat h
  have hv : c.toNat = 48 ∨ c.toNat = 49 ∨ c.toNat = 50 ∨ c.toNat = 51 ∨
      c.toNat = 52 ∨ c.toNat = 53 ∨ c.toNat = 54 ∨ c.toNat = 55 ∨
      c.toNat = 56 ∨ c.toNat = 57 := by omega
  rcases hv with h | h | h | h | h | h | h | h | h | h
  · exact Or.inl (char_eq_of_toNat h)
  · exact Or.inr (Or.inl (char_eq_of_toNat h))
  · exact Or.inr (Or.inr (Or.inl (char_eq_of_toNat h)))
  · exact Or.inr (Or.inr (Or.inr (Or.inl (char_eq_of_toNat h))))
  · exact Or.inr (Or.inr (Or.inr (Or.inr (Or.inl (char_eq_of_toNat h)))))
  · exact Or.inr (Or.inr (Or.inr (Or.inr (Or.inr (Or.inl
      (char_eq_of_toNat h))))))
  · exact Or.inr (Or.inr (Or.inr (Or.inr (Or.inr (Or.inr (Or.inl
      (char_eq_of_toNat h)))))))
  · exact Or.inr (Or.inr (Or.inr (Or.inr (Or.inr (Or.inr (Or.inr (Or.inl
      (char_eq_of_toNat h))))))))
  · exact Or.inr (Or.inr (Or.inr (Or.inr (Or.inr (Or.inr (Or.inr (Or.inr
      (Or.inl (char_eq_of_toNat h)))))))))
  · exact Or.inr (Or.inr (Or.inr (Or.inr (Or.inr (Or.inr (Or.inr (Or.inr
      (Or.inr (char_eq_of_toNat h)))))))))

theorem isAlpha_not_isDigit {c : Char} (ha : c.isAlpha = true) :
    ¬ c.isDigit = true := by
  intro hd
  have hb := isDigit_toNat hd
  simp [Char.isAlpha, Char.isUpper, Char.isLower] at ha
  rcases ha with ⟨h1, h2⟩ | ⟨h1, h2⟩
  · have h1' : 65 ≤ c.toNat := h1
    have h2' : c.toNat ≤ 90 := h2
    omega
  · have h1' : 97 ≤ c.toNat := h1
    have h2' : c.toNat ≤ 122 := h2
    omega

theorem charVal_lt_ten {c : Char} (h : c.isDigit = true) : charVal c < 10 := by
  rcases isDigit_cases h with rfl | rfl | rfl | rfl | rfl | rfl | rfl | rfl |
    rfl | rfl <;> decide

theorem digitToChar_charVal {c : Char} (h : c.isDigit = true) :
    digitToChar (charVal c) = c := by
  rcases isDigit_cases h with rfl | rfl | rfl | rfl | rfl | rfl | rfl | rfl |
    rfl | rfl <;> decide

theorem charVal_digitToChar {d : Nat} (h : d < 10) :
    charVal (digitToChar d) = d := by
  interval_cases d <;> decide

theorem charVal_pos {c : Char} (h : c.isDigit = true) (h0 : c ≠ '0') :
    1 ≤ charVal c := by
  rcases isDigit_cases h with rfl | rfl | rfl | rfl | rfl | rfl | rfl | rfl |
    rfl | rfl
  · exact absurd rfl h0
  all_goals decide

theorem decimalValue_append_singleton (ds : List Char) (c : Char) :
    decimalValue (ds ++ [c]) = decimalValue ds * 10 + charVal c := by
  simp [decimalValue, List.foldl_append]

theorem foldl_decimal_le (cs : List Char) (a : Nat) :
    a ≤ cs.foldl (fun acc c => acc * 10 + charVal c) a := by
  induction cs generalizing a with
  | nil => exact Nat.le_refl a
  | cons c cs ih =>
    calc a ≤ a * 10 + charVal c := by omega
    _ ≤ _ := ih (a * 10 + charVal c)

theorem decimalValue_pos {ds : List Char} (hne : ds ≠ [])
    (hd : ∀ c ∈ ds, c.isDigit = true) (h0 : ds.head? ≠ some '0') :
    1 ≤ decimalValue ds := by
  match ds, hne with
  | c :: cs, _ =>
    have hc : c.isDigit = true := hd c (List.mem_cons_self c cs)
    have hc0 : c ≠ '0' := by
      intro h
      exact h0 (by rw [h]; rfl)
    have h1 := charVal_pos hc hc0
    have : charVal c ≤ decimalValue (c :: cs) := by
      simpa [decimalValue] using foldl_decimal_le cs (charVal c)
    omega

theorem natToDecimal_ne_nil (n : Nat) : natToDecimal n ≠ [] := by
  rw [natToDecimal]
  split <;> simp

theorem decimalValue_natToDecimal (n : Nat) :
    decimalValue (natToDecimal n) = n := by
  induction n using Nat.strong_induction_on with
  | _ n ih =>
    rw [natToDecimal]
    split
    · rename_i h
      simp [decimalValue, charVal_digitToChar h]
    · rename_i h
      rw [decimalValue_append_singleton,
        ih (n / 10) (Nat.div_lt_self (by omega) (by omega)),
        charVal_digitToChar (Nat.mod_lt n (by omega))]
      omega

theorem natToDecimal_head {n : Nat} (h : n ≠ 0) :
    (natToDecimal n).head? ≠ some '0' := by
  induction n using Nat.strong_induction_on with
  | _ n ih =>
    rw [natToDecimal]
    split
    · rename_i hlt
      have h10 : n < 10 := hlt
      intro hc
      simp at hc
      have : charVal (digitToChar n) = charVal '0' := by rw [hc]
      rw [charVal_digitToChar h10] at this
      simp [charVal] at this
      exact h this
    · rename_i hlt
      have hne := natToDecimal_ne_nil (n / 10)
      obtain ⟨a, as, hcons⟩ := List.exists_cons_of_ne_nil hne
      have hdiv : n / 10 ≠ 0 := by
        have := Nat.div_pos (by omega : 10 ≤ n) (by omega : 0 < 10)
        omega
      have := ih (n / 10) (Nat.div_lt_self (by omega) (by omega)) hdiv
      rw [hcons] at this ⊢
      simpa using this

theorem natToDecimal_decimalValue {ds : List Char} (hne : ds ≠ [])
    (hd : ∀ c ∈ ds, c.isDigit = true)
    (h0 : ds.head? ≠ some '0' ∨ ds = ['0']) :
    natToDecimal (decimalValue ds) = ds := by
  induction ds using List.reverseRecOn with
  | nil => exact absurd rfl hne
  | append_singleton ds' d ih =>
    have hdd : d.isDigit = true := hd d (by simp)
    rcases eq_or_ne ds' [] with rfl | hne'
    · simp only [List.nil_append]
      have hval : decimalValue [d] = charVal d := by
        simp [decimalValue]
      rw [hval, natToDecimal, if_pos (charVal_lt_ten hdd),
        digitToChar_charVal hdd]
    · have hd' : ∀ c ∈ ds', c.isDigit = true := fun c hc =>
        hd c (List.mem_append_left [d] hc)
      have hhead : ds'.head? ≠ some '0' := by
        rcases h0 with h0 | h0
        · intro hc
          apply h0
          rw [List.head?_append, hc]
          rfl
        · cases ds' with
          | nil => exact absurd rfl hne'
          | cons a as => simp at h0
      have hpos := decimalValue_pos hne' hd' hhead
      have hlt := charVal_lt_ten hdd
      have hge : ¬ decimalValue ds' * 10 + charVal d < 10 := by omega
      rw [decimalValue_append_singleton, natToDecimal, if_neg hge]
      have hdiv : (decimalValue ds' * 10 + charVal d) / 10 = decimalValue ds' := by
        rw [Nat.mul_comm, Nat.mul_add_div (by norm_num : (0:Nat) < 10)]
        omega
      have hmod : (decimalValue ds' * 10 + charVal d) % 10 = charVal d := by
        rw [Nat.add_comm, Nat.add_mul_mod_self_right]
        exact Nat.mod_eq_of_lt hlt
      rw [hdiv, hmod, ih hne' hd' (Or.inl hhead), digitToChar_charVal hdd]

/-! ### Lemmas about the fragment parser -/

theorem dropWhile_append_of_all {α : Type} (p : α → Bool) {l1 : List α}
    (l2 : List α) (h : ∀ x ∈ l1, p x = true) :
    (l1 ++ l2).dropWhile p = l2.dropWhile p := by
  induction l1 with
  | nil => rfl
  | cons a l1 ih =>
    rw [List.cons_append, List.dropWhile_cons, if_pos (h a (by simp))]
    exact ih fun x hx => h x (by simp [hx])

theorem takeWhile_append_of_all {α : Type} (p : α → Bool) {l1 : List α}
    (l2 : List α) (h : ∀ x ∈ l1, p x = true) :
    (l1 ++ l2).takeWhile p = l1 ++ l2.takeWhile p := by
  induction l1 with
  | nil => rfl
  | cons a l1 ih =>
    rw [List.cons_append, List.takeWhile_cons, if_pos (h a (by simp)),
      List.cons_append]
    rw [ih fun x hx => h x (by simp [hx])]

/-- A token made of a (possibly empty) run of non-digits followed by a
non-empty run of digits whose value fits in `usize` parses into the
non-digit run as prefix and the digit run's value as index. -/
theorem fragment_parse_split (ls ds : List Char) (hds : ds ≠ [])
    (hls : ∀ c ∈ ls, c.isDigit = false) (hd : ∀ c ∈ ds, c.isDigit = true)
    (hbound : decimalValue ds ≤ USIZE_MAX) :
    ArgPathFragment.parse (String.mk (ls ++ ds)) =
      .ok ⟨String.mk ls, some (decimalValue ds)⟩ := by
  obtain ⟨d, ds', rfl⟩ := List.exists_cons_of_ne_nil hds
  have hdd : d.isDigit = true := hd d (by simp)
  have hnotp : (fun c => !c.isDigit) d = false := by simp [hdd]
  have hallp : ∀ x ∈ ls, (fun c => !c.isDigit) x = true := by
    intro x hx
    simp [hls x hx]
  have hdata : (String.mk (ls ++ d :: ds')).data = ls ++ d :: ds' := rfl
  have hne : ls ++ d :: ds' ≠ [] := by simp
  have hdrop : (ls ++ d :: ds').dropWhile (fun c => !c.isDigit) = d :: ds' := by
    rw [dropWhile_append_of_all _ _ hallp, List.dropWhile_cons, if_neg (by simp [hdd])]
  have htake : (ls ++ d :: ds').takeWhile (fun c => !c.isDigit) = ls := by
    rw [takeWhile_append_of_all _ _ hallp, List.takeWhile_cons,
      if_neg (by simp [hdd])]
    simp
  have hus : parseUsize (d :: ds') = some (decimalValue (d :: ds')) := by
    rw [parseUsize, if_pos]
    refine ⟨by simp, ?_, hbound⟩
    rw [List.all_eq_true]
    exact hd
  rw [ArgPathFragment.parse, if_neg (by simp [hdata, hne])]
  rw [hdata, hdrop, htake]
  simp [hus]

/-- A non-empty token with no digit parses into itself as prefix with no
index. -/
theorem fragment_parse_no_digit (s : String) (hne : s.data ≠ [])
    (h : ∀ c ∈ s.data, c.isDigit = false) :
    ArgPathFragment.parse s = .ok ⟨s, none⟩ := by
  have hdrop : s.data.dropWhile (fun c => !c.isDigit) = [] := by
    rw [List.dropWhile_eq_nil_iff]
    intro x hx
    simp [h x hx]
  rw [ArgPathFragment.parse, if_neg (by simp [hne]), hdrop]

/-- The head of a non-empty `dropWhile` result fails the predicate. -/
theorem head_dropWhile_false {α : Type} (p : α → Bool) (l : List α) {a : α}
    {as : List α} (h : l.dropWhile p = a :: as) : p a = false := by
  induction l with
  | nil => cases h
  | cons x xs ih =>
    rw [List.dropWhile_cons] at h
    by_cases hp : p x = true
    · rw [if_pos hp] at h
      exact ih h
    · rw [if_neg hp] at h
      injection h with h1 _
      subst h1
      simpa using hp

/-- Members of a `dropWhile` result are members of the original list. -/
theorem mem_of_mem_dropWhile {α : Type} {p : α → Bool} {l : List α} {x : α}
    (h : x ∈ l.dropWhile p) : x ∈ l := by
  induction l with
  | nil => cases h
  | cons a as ih =>
    rw [List.dropWhile_cons] at h
    by_cases hp : p a = true
    · rw [if_pos hp] at h
      exact List.mem_cons_of_mem a (ih h)
    · rw [if_neg hp] at h
      exact h

/-- If some token of the list fails to parse, the whole collection
fails (with the error of the first failing token). -/
theorem parseTokens_err_of_mem {ts : List String} {t : String}
    (hmem : t ∈ ts) (he : ∃ e, ArgPathFragment.parse t = .error e) :
    ∃ e, parseTokens ts = .error e := by
  induction ts with
  | nil => cases hmem
  | cons u us ih =>
    rw [parseTokens]
    cases hu : ArgPathFragment.parse u with
    | error e => exact ⟨e, rfl⟩
    | ok f =>
      have htu : t ∈ us := by
        rcases List.mem_cons.mp hmem with rfl | h
        · obtain ⟨e, he⟩ := he
          rw [hu] at he
          cases he
        · exact h
      obtain ⟨e, hus⟩ := ih htu
      rw [hus]
      exact ⟨e, rfl⟩

/-! ### Lemmas about divergence and the resolver loop -/

/-- The divergence scan returns nothing exactly when the left fragment
list is a positional prefix of (or equal to) the right one. -/
theorem disjointAux_eq_none_iff (fs gs : List ArgPathFragment) :
    disjointAux fs gs = none ↔ ∃ ts, gs = fs ++ ts := by
  induction fs generalizing gs with
  | nil => simp [disjointAux]
  | cons f fs ih =>
    cases gs with
    | nil =>
      simp only [disjointAux]
      constructor
      · intro h
        cases h
      · rintro ⟨ts, hts⟩
        cases hts
    | cons g gs =>
      rw [disjointAux]
      by_cases hfg : f = g
      · subst hfg
        rw [if_neg (by simp)]
        rw [ih]
        constructor
        · rintro ⟨ts, rfl⟩
          exact ⟨ts, rfl⟩
        · rintro ⟨ts, hts⟩
          rw [List.cons_append] at hts
          exact ⟨ts, by injection hts⟩
      · rw [if_pos (by simp [hfg])]
        constructor
        · intro h
          cases h
        · rintro ⟨ts, hts⟩
          rw [List.cons_append] at hts
          injection hts with h1 _
          exact absurd h1.symm hfg

/-- A file whose outcome is acceptance ends up in the result list of any
successful resolution over a listing containing it. -/
theorem resolveLoop_ok_mem {cmd : Command} {files : List String}
    {res : List (ArgPath × String)} (h : resolveLoop cmd files = .ok res)
    {file : String} (hmem : file ∈ files) {r : ArgPath × String}
    (hr : fileOutcome cmd file = .ok (some r)) : r ∈ res := by
  induction files generalizing res with
  | nil => cases hmem
  | cons f fs ih =>
    rw [resolveLoop] at h
    cases hf : fileOutcome cmd f with
    | error e =>
      rw [hf] at h
      cases h
    | ok o =>
      rw [hf] at h
      cases o with
      | none =>
        rcases List.mem_cons.mp hmem with rfl | hmem'
        · rw [hf] at hr
          cases hr
        · exact ih h hmem'
      | some r' =>
        cases hrec : resolveLoop cmd fs with
        | error e =>
          rw [hrec] at h
          cases h
        | ok rest =>
          rw [hrec] at h
          injection h with h
          subst h
          rcases List.mem_cons.mp hmem with rfl | hmem'
          · rw [hf] at hr
            injection hr with hr
            injection hr with hr
            exact hr ▸ List.mem_cons_self r' rest
          · exact List.mem_cons_of_mem r' (ih hrec hmem')

/-- A successful run loop implies every resolved file carries both a
`day` and a `part` index. -/
theorem runLoop_ok_mem {cmd : Command}
    {solver tester : String → Nat → Nat → Except SolverError String}
    {l : List (ArgPath × String)} (h : runLoop cmd solver tester l = .ok ()) :
    ∀ pf ∈ l, (pf.1.fragmentIndex "day").isSome = true ∧
      (pf.1.fragmentIndex "part").isSome = true := by
  induction l with
  | nil => intro pf hpf; cases hpf
  | cons pf' rest ih =>
    intro pf hpf
    obtain ⟨p, f⟩ := pf'
    rw [runLoop] at h
    cases hday : p.fragmentIndex "day" with
    | none => simp [hday] at h
    | some dayIndex =>
      simp only [hday] at h
      cases hpart : p.fragmentIndex "part" with
      | none => simp [hpart] at h
      | some partIndex =>
        simp only [hpart] at h
        have hrest : runLoop cmd solver tester rest = .ok () := by
          cases cmd with
          | Solve a =>
            cases hs : solver f dayIndex partIndex with
            | error e => simp [hs] at h
            | ok v => simpa [hs] using h
          | Test a => simpa using h
        rcases List.mem_cons.mp hpf with rfl | hmem'
        · exact ⟨by simp [hday], by simp [hpart]⟩
        · exact ih hrest pf hmem'

/-! ### Concrete specs used by several claims -/

/-- The query `day3` as an `ArgPath`. -/
def q3 : ArgPath := ⟨"day3", [⟨"day", some 3⟩]⟩

/-- The file spec of `day3.part1.input.txt`. -/
def fp31i : ArgPath :=
  ⟨"day3.part1.input.txt", [⟨"day", some 3⟩, ⟨"part", some 1⟩, ⟨"input", none⟩]⟩

/-- The query `day3/input` as an `ArgPath`. -/
def q3i : ArgPath := ⟨"day3/input", [⟨"day", some 3⟩, ⟨"input", none⟩]⟩

/-- The file spec of `day3.input.txt`. -/
def fp3i : ArgPath := ⟨"day3.input.txt", [⟨"day", some 3⟩, ⟨"input", none⟩]⟩

/-- The query `day1/part1` as an `ArgPath`. -/
def q11 : ArgPath := ⟨"day1/part1", [⟨"day", some 1⟩, ⟨"part", some 1⟩]⟩

/-- The file spec of `day1.part1.INPUT.txt`. -/
def fpIN : ArgPath :=
  ⟨"day1.part1.INPUT.txt", [⟨"day", some 1⟩, ⟨"part", some 1⟩, ⟨"INPUT", none⟩]⟩

/-- A trivial external solver collaborator. -/
def solver0 : String → Nat → Nat → Except SolverError String :=
  fun _ _ _ => .ok ""

/-- An `ArgPath` with no fragments at all. -/
def fpBare : ArgPath := ⟨"x", []⟩

/-! ### Claims -/

/-- C1 (amended): in the Resolver, for every query `PathSpec` and every
candidate file whose `PathSpec` construction and classification
succeed, if `first_divergence` between the file spec and the query spec
returns nothing — which holds exactly when the FILE spec is a
positional prefix of, or equal to, the QUERY spec — then the file is
unconditionally accepted into the result set; in particular every such
file whose fragment sequence is a positional prefix of (or equal to)
the query's fragments is accepted this way. -/
theorem no_divergence_unconditional_accept (cmd : Command)
    (files : List String) (res : List (ArgPath × String)) (file : String)
    (fp : ArgPath) (t : FileType)
    (hres : cmd.resolveInputFiles files = .ok res) (hmem : file ∈ files)
    (hparse : ArgPath.parsePath file = .ok fp)
    (htype : getFileType fp = some t) :
    (fp.disjoint cmd.args.path = none ↔
      ∃ ts, cmd.args.path.fragments = fp.fragments ++ ts) ∧
    (fp.disjoint cmd.args.path = none → (fp, file) ∈ res) := by
  constructor
  · exact disjointAux_eq_none_iff fp.fragments cmd.args.path.fragments
  · intro hdiv
    apply resolveLoop_ok_mem hres hmem
    simp only [fileOutcome, hparse, htype, hdiv]

theorem no_divergence_unconditional_accept_witness :
    (fp3i.disjoint q3i = none ↔ ∃ ts, q3i.fragments = fp3i.fragments ++ ts) ∧
    (fp3i.disjoint q3i = none →
      (fp3i, "day3.input.txt") ∈ [(fp3i, "day3.input.txt")]) :=
  no_divergence_unconditional_accept (.Solve ⟨q3i⟩) ["day3.input.txt"]
    [(fp3i, "day3.input.txt")] "day3.input.txt" fp3i .Input
    (by decide) (by decide) (by decide) (by decide)

/-- C1 counterexample: the file `day3.part1.input.txt` strictly extends
the query `day3` fragment-wise, yet its divergence against the query is
NOT nothing (it is the `part1` fragment), and the file is not accepted
at all under the `Test` command — so a file strictly extending the
query is not unconditionally accepted through the no-divergence rule,
and no-divergence does not mean the query is a prefix of the file. -/
theorem strict_extension_not_unconditionally_accepted :
    ArgPath.parse "day3" = .ok q3 ∧
    ArgPath.parsePath "day3.part1.input.txt" = .ok fp31i ∧
    fp31i.fragments = q3.fragments ++ [⟨"part", some 1⟩, ⟨"input", none⟩] ∧
    fp31i.disjoint q3 ≠ none ∧
    (Command.Test ⟨q3⟩).resolveInputFiles ["day3.part1.input.txt"] = .ok [] := by
  refine ⟨by decide, by decide, by decide, by decide, by decide⟩

/-- C2: query `day3` against the file `day3.part1.input.txt`: the file
is classified `Input`, diverges from the query at the `part1` fragment,
the query carries no `part` constraint, and the file is accepted under
`Solve` but rejected under `Test` by the kind gate. -/
theorem day3_solve_accepts_test_rejects :
    ArgPath.parse "day3" = .ok q3 ∧
    ArgPath.parsePath "day3.part1.input.txt" = .ok fp31i ∧
    getFileType fp31i = some .Input ∧
    fp31i.disjoint q3 = some ⟨"part", some 1⟩ ∧
    q3.fragmentIndex "part" = none ∧
    (Command.Solve ⟨q3⟩).resolveInputFiles ["day3.part1.input.txt"] =
      .ok [(fp31i, "day3.part1.input.txt")] ∧
    (Command.Test ⟨q3⟩).resolveInputFiles ["day3.part1.input.txt"] = .ok [] := by
  refine ⟨by decide, by decide, by decide, by decide, by decide, by decide,
    by decide⟩

/-- C3 (amended): for every token `<letters><digits>` whose digit run
has no leading zero (or is exactly `0`) and whose value fits in
`usize`, parsing yields the letter run as prefix and the digit run's
base-10 value as index, and concatenating the prefix with the decimal
rendering of the index reproduces the original token exactly. -/
theorem letters_digits_parse_roundtrip (ls ds : List Char) (hls : ls ≠ [])
    (ha : ∀ c ∈ ls, c.isAlpha = true) (hds : ds ≠ [])
    (hd : ∀ c ∈ ds, c.isDigit = true)
    (h0 : ds.head? ≠ some '0' ∨ ds = ['0'])
    (hbound : decimalValue ds ≤ USIZE_MAX) :
    ArgPathFragment.parse (String.mk (ls ++ ds)) =
      .ok ⟨String.mk ls, some (decimalValue ds)⟩ ∧
    String.mk ls ++ renderNat (decimalValue ds) = String.mk (ls ++ ds) := by
  have hls' : ∀ c ∈ ls, c.isDigit = false := fun c hc => by
    have := isAlpha_not_isDigit (ha c hc)
    simpa using this
  refine ⟨fragment_parse_split ls ds hds hls' hd hbound, ?_⟩
  show String.mk ls ++ String.mk (natToDecimal (decimalValue ds)) =
    String.mk (ls ++ ds)
  rw [natToDecimal_decimalValue hds hd h0]
  rfl

theorem letters_digits_parse_roundtrip_witness :
    ArgPathFragment.parse "day3" = .ok ⟨"day", some 3⟩ ∧
    "day" ++ renderNat 3 = "day3" :=
  letters_digits_parse_roundtrip ['d', 'a', 'y'] ['3'] (by decide) (by decide)
    (by decide) (by decide) (by decide) (by decide)

/-- C3 counterexample: the token `day01` is of the `<letters><digits>`
form and parses to prefix `day` with index `1`, but re-deriving the
token as the prefix plus the decimal rendering of the index gives
`day1`, not `day01` — the round trip fails on leading zeros. -/
theorem leading_zero_roundtrip_fails :
    ArgPathFragment.parse "day01" = .ok ⟨"day", some 1⟩ ∧
    renderNat 1 = "1" ∧
    "day" ++ "1" ≠ "day01" := by
  refine ⟨by decide, ?_, by decide⟩
  show String.mk (natToDecimal 1) = "1"
  rw [natToDecimal]
  decide

/-- C4 (amended): the file name `.txt` does NOT construct a zero-
fragment `PathSpec`: splitting on `.` gives an empty first part that
fails fragment parsing, so construction fails with `EmptyToken` and the
resolver aborts the whole resolution with that error.  A zero-fragment
`PathSpec` instead arises from a dot-free file name such as `txt`,
which is classified as unknown and skipped without crashing or aborting
the resolution. -/
theorem extension_only_name_aborts :
    ArgPath.parsePath ".txt" = .error .Empty ∧
    (∀ (cmd : Command) (rest : List String),
      resolveLoop cmd (".txt" :: rest) = .error (.InvalidPath .Empty)) ∧
    ArgPath.parsePath "txt" = .ok ⟨"txt", []⟩ ∧
    getFileType ⟨"txt", []⟩ = none ∧
    (∀ (cmd : Command) (rest : List String),
      resolveLoop cmd ("txt" :: rest) = resolveLoop cmd rest) := by
  refine ⟨by decide, fun cmd rest => ?_, by decide, by decide,
    fun cmd rest => ?_⟩
  · have h : fileOutcome cmd ".txt" = .error (.InvalidPath .Empty) := rfl
    simp only [resolveLoop, h]
  · have h : fileOutcome cmd "txt" = .ok none := rfl
    simp only [resolveLoop, h]

/-- C4 counterexample: `PathSpec` construction from `.txt` does not
succeed with zero fragments — it fails with `EmptyToken`, and the
resolver aborts the resolution with that error instead of skipping the
file. -/
theorem extension_only_name_not_zero_fragments :
    ArgPath.parsePath ".txt" = .error .Empty ∧
    (Command.Solve ⟨q3⟩).resolveInputFiles [".txt"] =
      .error (.InvalidPath .Empty) := by
  refine ⟨by decide, by decide⟩

/-- C5: a `PathSpec` parse failure on a candidate file aborts the whole
resolution with that error regardless of the remaining candidates,
whereas a candidate that parses but classifies as unknown is skipped:
the resolution of the rest of the listing proceeds unchanged. -/
theorem parse_failure_aborts_unknown_skipped :
    (∀ (cmd : Command) (file : String) (rest : List String)
       (e : ParsePathError),
      ArgPath.parsePath file = .error e →
      resolveLoop cmd (file :: rest) = .error (.InvalidPath e)) ∧
    (∀ (cmd : Command) (file : String) (rest : List String) (fp : ArgPath),
      ArgPath.parsePath file = .ok fp → getFileType fp = none →
      resolveLoop cmd (file :: rest) = resolveLoop cmd rest) := by
  constructor
  · intro cmd file rest e hp
    have h : fileOutcome cmd file = .error (.InvalidPath e) := by
      simp only [fileOutcome, hp]
    simp only [resolveLoop, h]
  · intro cmd file rest fp hp ht
    have h : fileOutcome cmd file = .ok none := by
      simp only [fileOutcome, hp, ht]
    simp only [resolveLoop, h]

theorem parse_failure_aborts_unknown_skipped_witness :
    resolveLoop (.Solve ⟨q3⟩) [".txt"] = .error (.InvalidPath .Empty) ∧
    resolveLoop (.Solve ⟨q3⟩) ["txt"] = resolveLoop (.Solve ⟨q3⟩) [] :=
  ⟨parse_failure_aborts_unknown_skipped.1 _ ".txt" [] .Empty (by decide),
   parse_failure_aborts_unknown_skipped.2 _ "txt" [] ⟨"txt", []⟩ (by decide)
     (by decide)⟩

/-- C6 (amended): the fragment parser rejects the empty token with
`EmptyToken`; every non-empty token without a digit parses to itself as
prefix with no index; and a token consisting purely of digits whose
value fits in `usize` parses to an empty-string prefix with a present
index rather than an error (a pure-digit token whose value overflows
`usize` instead fails with `InvalidIndex`). -/
theorem fragment_parse_edge_cases :
    ArgPathFragment.parse "" = .error .Empty ∧
    (∀ s : String, s.data ≠ [] → (∀ c ∈ s.data, c.isDigit = false) →
      ArgPathFragment.parse s = .ok ⟨s, none⟩) ∧
    (∀ ds : List Char, ds ≠ [] → (∀ c ∈ ds, c.isDigit = true) →
      decimalValue ds ≤ USIZE_MAX →
      ArgPathFragment.parse (String.mk ds) = .ok ⟨"", some (decimalValue ds)⟩) := by
  refine ⟨by decide, fragment_parse_no_digit, ?_⟩
  intro ds hne hd hb
  exact fragment_parse_split [] ds hne (by simp) hd hb

theorem fragment_parse_edge_cases_witness :
    ArgPathFragment.parse "input" = .ok ⟨"input", none⟩ ∧
    ArgPathFragment.parse "123" = .ok ⟨"", some 123⟩ :=
  ⟨fragment_parse_edge_cases.2.1 "input" (by decide) (by decide),
   fragment_parse_edge_cases.2.2 ['1', '2', '3'] (by decide) (by decide)
     (by decide)⟩

/-- C6 counterexample: the token `99999999999999999999` consists purely
of ASCII digits, yet the fragment parser reports `InvalidIndex` because
the value does not fit in 64-bit `usize` — a pure-digit token does not
always succeed. -/
theorem pure_digits_overflow_errors :
    (∀ c ∈ ("99999999999999999999" : String).data, c.isDigit = true) ∧
    ArgPathFragment.parse "99999999999999999999" =
      .error (.InvalidIndex "99999999999999999999") := by
  refine ⟨by decide, by decide⟩

/-- C7: a resolved file whose spec lacks a `day` or a `part` index makes
the run loop fail with the `ResolvePath` error for that file, for any
solver and tester collaborators (so no solver is invoked on it); and if
such a file is among the accepted files of a resolution, the whole run
returns an error. -/
theorem missing_day_or_part_fatal :
    (∀ (cmd : Command)
       (solver tester : String → Nat → Nat → Except SolverError String)
       (p : ArgPath) (f : String) (rest : List (ArgPath × String)),
      p.fragmentIndex "day" = none ∨ p.fragmentIndex "part" = none →
      runLoop cmd solver tester ((p, f) :: rest) = .error (.ResolvePath f)) ∧
    (∀ (cmd : Command)
       (solver tester : String → Nat → Nat → Except SolverError String)
       (files : List String) (res : List (ArgPath × String))
       (p : ArgPath) (f : String),
      cmd.resolveInputFiles files = .ok res → (p, f) ∈ res →
      (p.fragmentIndex "day" = none ∨ p.fragmentIndex "part" = none) →
      ∃ err, Command.run cmd solver tester files = .error err) := by
  constructor
  · intro cmd solver tester p f rest h
    rcases h with h | h
    · simp only [runLoop, h]
    · cases hday : p.fragmentIndex "day" with
      | none => simp only [runLoop, hday]
      | some d => simp only [runLoop, hday, h]
  · intro cmd solver tester files res p f hres hmem hlack
    cases hrl : runLoop cmd solver tester res with
    | error err =>
      refine ⟨err, ?_⟩
      simp only [Command.run, hres, hrl]
    | ok u =>
      exfalso
      cases u
      have hidx := runLoop_ok_mem hrl (p, f) hmem
      rcases hlack with h | h
      · rw [h] at hidx
        simp at hidx
      · rw [h] at hidx
        simp at hidx

theorem missing_day_or_part_fatal_witness :
    runLoop (.Solve ⟨q3⟩) solver0 solver0 [(fpBare, "x")] =
      .error (.ResolvePath "x") :=
  missing_day_or_part_fatal.1 _ solver0 solver0 fpBare "x" []
    (Or.inl (by decide))

/-- C8 (amended): a query string containing an empty slash-delimited
segment always fails `PathSpec` construction, because the empty token
fails fragment parsing and the collector short-circuits on the first
failing token; when every segment before the empty one is itself a
valid fragment (as in `day3/`, `/day3` and `day3//part1`) the reported
error is `EmptyToken` (an earlier invalid segment otherwise wins with
its own error). -/
theorem empty_segment_query_fails :
    (∀ s : String, [] ∈ splitOnChar '/' s.data →
      (ArgPath.parse s).isOk = false) ∧
    ArgPath.parse "day3/" = .error .Empty ∧
    ArgPath.parse "/day3" = .error .Empty ∧
    ArgPath.parse "day3//part1" = .error .Empty := by
  refine ⟨?_, by decide, by decide, by decide⟩
  intro s hmem
  by_cases hs : s = ""
  · subst hs
    decide
  · have hmem' : "" ∈ (splitOnChar '/' s.data).map String.mk :=
      List.mem_map_of_mem String.mk hmem
    obtain ⟨e, he⟩ :=
      parseTokens_err_of_mem hmem' ⟨.Empty, by decide⟩
    simp only [ArgPath.parse, if_neg hs, he]
    rfl

theorem empty_segment_query_fails_witness :
    (ArgPath.parse "x/").isOk = false :=
  empty_segment_query_fails.1 "x/" (by decide)

/-- C8 counterexample: the query `a1b/` contains an empty slash-
delimited segment, yet `PathSpec` construction fails with
`InvalidIndex` on the earlier segment `a1b`, not with `EmptyToken`. -/
theorem empty_segment_not_empty_token_error :
    [] ∈ splitOnChar '/' ("a1b/" : String).data ∧
    ArgPath.parse "a1b/" = .error (.InvalidIndex "a1b") := by
  refine ⟨by decide, by decide⟩

/-- C9: classification is case-insensitive but the divergence rules are
case-sensitive: `day1.part1.INPUT.txt` is classified `Input`, yet
against the query `day1/part1` its diverging fragment has the prefix
`INPUT`, which matches none of the `part`/`input`/`test` rules, so the
file is silently rejected even in `Solve` mode. -/
theorem case_insensitive_classify_case_sensitive_divergence :
    ArgPath.parse "day1/part1" = .ok q11 ∧
    ArgPath.parsePath "day1.part1.INPUT.txt" = .ok fpIN ∧
    getFileType fpIN = some .Input ∧
    fpIN.disjoint q11 = some ⟨"INPUT", none⟩ ∧
    ("INPUT" ≠ "part" ∧ "INPUT" ≠ "input" ∧ "INPUT" ≠ "test") ∧
    (Command.Solve ⟨q11⟩).resolveInputFiles ["day1.part1.INPUT.txt"] =
      .ok [] := by
  refine ⟨by decide, by decide, by decide, by decide, by decide, by decide⟩

/-- C10: every fragment produced by a successful parse has a prefix
containing no ASCII digit, and its index is present exactly when the
original token contained at least one ASCII digit. -/
theorem fragment_prefix_index_invariant (s : String) (frag : ArgPathFragment)
    (h : ArgPathFragment.parse s = .ok frag) :
    (∀ c ∈ frag.pfx.data, c.isDigit = false) ∧
    (frag.index.isSome = true ↔ ∃ c ∈ s.data, c.isDigit = true) := by
  rw [ArgPathFragment.parse] at h
  by_cases hne : s.data = []
  · rw [if_pos hne] at h
    cases h
  · rw [if_neg hne] at h
    cases hdrop : s.data.dropWhile (fun c => !c.isDigit) with
    | nil =>
      rw [hdrop] at h
      injection h with h
      subst h
      constructor
      · intro c hc
        have := List.dropWhile_eq_nil_iff.mp hdrop c hc
        simpa using this
      · simp only [Option.isSome_none]
        constructor
        · intro hfalse
          cases hfalse
        · rintro ⟨c, hc, hdig⟩
          have := List.dropWhile_eq_nil_iff.mp hdrop c hc
          simp [hdig] at this
    | cons d rest' =>
      rw [hdrop] at h
      cases hus : parseUsize (d :: rest') with
      | none =>
        simp only [hus] at h
        cases h
      | some n =>
        simp only [hus, Except.ok.injEq] at h
        subst h
        constructor
        · intro c hc
          have := List.mem_takeWhile_imp hc
          simpa using this
        · simp only [Option.isSome_some, true_iff]
          have hd' : (fun c => !c.isDigit) d = false :=
            head_dropWhile_false (fun c => !c.isDigit) s.data hdrop
          have hmem : d ∈ s.data := by
            apply mem_of_mem_dropWhile (p := fun c => !c.isDigit)
            rw [hdrop]
            exact List.mem_cons_self d rest'
          exact ⟨d, hmem, by simpa using hd'⟩

theorem fragment_prefix_index_invariant_witness :
    (∀ c ∈ ("day" : String).data, c.isDigit = false) ∧
    ((some 3 : Option Nat).isSome = true ↔
      ∃ c ∈ ("day3" : String).data, c.isDigit = true) :=
  fragment_prefix_index_invariant "day3" ⟨"day", some 3⟩ (by decide)

end Aoc
